import Mathlib

/-!
Shallow embedding of the fill-orchestration engine of `signet-orders`
(`src/filler.rs`, `src/bundle.rs`).  Pure fragments of the Rust code are
translated to Lean functions; the effectful pipeline (`Filler::fill`,
`Filler::fill_individually`, `BundleSender::send_dummy_bundles`) is
translated to explicit state passing: each step returns its `Except` result
together with a trace of the external calls it performed (signing, provider
fill, chain-id / block-number queries, bundle forwarding, confirmation
watches).  External capabilities (the signer, the two chain providers, the
transaction cache) are injected as function-valued records, mirroring the
generic `S: Signer` / provider parameters of the source.
-/

namespace SignetOrders

/-- Errors of the filler pipeline.  `external` wraps an error string produced
by an injected capability (`eyre` propagation via `?` in the source);
the other constructors are the `bail!` sites of `filler.rs`. -/
inductive FillerError where
  /-- `bail!("no orders to fill")` in `Filler::fill` / `Filler::sign_fills`. -/
  | emptyOrderSet : FillerError
  /-- `eyre!("invalid deadline in orders: …")` in `Filler::sign_fills`. -/
  | invalidDeadline : FillerError
  /-- `bail!("Failed to fill transaction")` in `sign_and_encode_txns`. -/
  | fillFailed : FillerError
  /-- An error returned by an injected capability and propagated with `?`. -/
  | external (msg : String) : FillerError
deriving Repr, DecidableEq

/-- The per-chain constants of `SignetConstants` used by the filler:
chain id and the Orders contract address. -/
structure ChainConstants where
  chainId : Nat
  orders : Nat
deriving Repr, DecidableEq

/-- The slice of `SignetConstants` the filler reads: rollup constants, host
constants, and the system constants passed to `UnsignedFill::with_chain`
(modelled as an opaque tag). -/
structure SignetConstants where
  rollup : ChainConstants
  host : ChainConstants
  system : Nat
deriving Repr, DecidableEq

/-- The permit payload of a signed order; the filler reads only its
`deadline` field (a `U256` in the source, modelled as `Nat`). -/
structure PermitPayload where
  deadline : Nat
deriving Repr, DecidableEq

/-- `Permit2Batch`: the signed permit attached to an order.  The filler
reads `permit.deadline`. -/
structure PermitBatch where
  permit : PermitPayload
deriving Repr, DecidableEq

/-- A `SignedOrder` as the filler consumes it: the signed permit (for the
deadline) plus an opaque identifier standing for the rest of the signed
content (inputs, outputs, signature). -/
structure SignedOrder where
  permit : PermitBatch
  content : Nat
deriving Repr, DecidableEq

/-- A `SignedFill` for one target chain, produced by the external
`UnsignedFill::sign`; opaque to the sequencing code. -/
structure SignedFill where
  payload : Nat
deriving Repr, DecidableEq

/-- `AggregateOrders`: built by collecting the `SignedOrder`s
(`orders.iter().collect()`); the filler treats it opaquely. -/
structure AggregateOrders where
  orders : List SignedOrder
deriving Repr, DecidableEq

/-- `orders.iter().collect::<AggregateOrders>()`. -/
def aggregateOrders (orders : List SignedOrder) : AggregateOrders :=
  ⟨orders⟩

/-- `UnsignedFill`: the aggregate obligation plus the deadline and chain
configuration added by the builder methods before signing. -/
structure UnsignedFill where
  agg : AggregateOrders
  deadline : Option Nat
  chainCfg : Option Nat
deriving Repr, DecidableEq

/-- `UnsignedFill::from(&agg)`. -/
def UnsignedFill.fromAgg (agg : AggregateOrders) : UnsignedFill :=
  ⟨agg, none, none⟩

/-- `UnsignedFill::with_deadline`. -/
def UnsignedFill.withDeadline (uf : UnsignedFill) (d : Nat) : UnsignedFill :=
  { uf with deadline := some d }

/-- `UnsignedFill::with_chain(constants.system().clone())`. -/
def UnsignedFill.withChain (uf : UnsignedFill) (sys : Nat) : UnsignedFill :=
  { uf with chainCfg := some sys }

/-- The call payload of a transaction request: a `fill` call carrying a
`SignedFill` (from `SignedFill::to_fill_tx`), an `initiate` call carrying a
`SignedOrder` (from `SignedOrder::to_initiate_tx`), or a plain transfer
(the dummy transaction of `bundle.rs`). -/
inductive TxPayload where
  | fillCall (f : SignedFill) (contract : Nat) : TxPayload
  | initiateCall (o : SignedOrder) (filler : Nat) (contract : Nat) : TxPayload
  | plain : TxPayload
deriving Repr, DecidableEq

/-- An alloy `TransactionRequest` as the filler populates it.  `sender`
models the `from` field. -/
structure TransactionRequest where
  payload : TxPayload
  toAddr : Option Nat
  value : Option Nat
  sender : Option Nat
  gasLimit : Option Nat
  maxPriorityFeePerGas : Option Nat
deriving Repr, DecidableEq

/-- `TransactionRequest::default()`. -/
def TransactionRequest.default : TransactionRequest :=
  ⟨.plain, none, none, none, none, none⟩

/-- `TransactionBuilder::with_from`. -/
def TransactionRequest.withFrom (tx : TransactionRequest) (a : Nat) : TransactionRequest :=
  { tx with sender := some a }

/-- `TransactionBuilder::with_gas_limit`. -/
def TransactionRequest.withGasLimit (tx : TransactionRequest) (g : Nat) : TransactionRequest :=
  { tx with gasLimit := some g }

/-- `TransactionBuilder::with_max_priority_fee_per_gas`. -/
def TransactionRequest.withMaxPriorityFeePerGas (tx : TransactionRequest) (f : Nat) :
    TransactionRequest :=
  { tx with maxPriorityFeePerGas := some f }

/-- `TransactionBuilder::with_to`. -/
def TransactionRequest.withTo (tx : TransactionRequest) (a : Nat) : TransactionRequest :=
  { tx with toAddr := some a }

/-- `TransactionBuilder::with_value`. -/
def TransactionRequest.withValue (tx : TransactionRequest) (v : Nat) : TransactionRequest :=
  { tx with value := some v }

/-- `SignedFill::to_fill_tx(orders_contract)` (external `signet_types`
function): a request whose calldata is the fill call. -/
def SignedFill.toFillTx (f : SignedFill) (contract : Nat) : TransactionRequest :=
  { TransactionRequest.default with payload := .fillCall f contract, toAddr := some contract }

/-- `SignedOrder::to_initiate_tx(filler_address, orders_contract)` (external
`signet_types` function): a request whose calldata is the initiate call. -/
def SignedOrder.toInitiateTx (o : SignedOrder) (filler : Nat) (contract : Nat) :
    TransactionRequest :=
  { TransactionRequest.default with
    payload := .initiateCall o filler contract
    toAddr := some contract }

/-- `HashMap::get` on the chain-id-keyed signed-fill map, modelled as an
association list (first matching key). -/
def hmGet (m : List (Nat × SignedFill)) (k : Nat) : Option SignedFill :=
  (m.find? (fun p => p.1 = k)).map (·.2)

/-- `DEFAULT_GAS_LIMIT` (`filler.rs` line 24). -/
def DEFAULT_GAS_LIMIT : Nat := 1000000

/-- `DEFAULT_PRIORITY_FEE_MULTIPLIER` (`filler.rs` line 26). -/
def DEFAULT_PRIORITY_FEE_MULTIPLIER : Nat := 16

/-- `alloy::consensus::constants::GWEI_TO_WEI`. -/
def GWEI_TO_WEI : Nat := 1000000000

/-- `Filler::rollup_txn_requests`: starts from an empty `Vec`, pushes the
rollup fill transaction if the signed-fill map has an entry for the rollup
chain id, then pushes one initiate transaction per order, in order.  (The
source function returns `Result` but has no failing branch.) -/
def rollupTxnRequests (c : SignetConstants) (signerAddress : Nat)
    (signedFills : List (Nat × SignedFill)) (orders : List SignedOrder) :
    List TransactionRequest :=
  let txRequests : List TransactionRequest := []
  let txRequests :=
    match hmGet signedFills c.rollup.chainId with
    | some rollupFill => txRequests ++ [rollupFill.toFillTx c.rollup.orders]
    | none => txRequests
  orders.foldl
    (fun acc signedOrder => acc ++ [signedOrder.toInitiateTx signerAddress c.rollup.orders])
    txRequests

/-- `Filler::host_txn_requests`: a single host fill transaction if the
signed-fill map has an entry for the host chain id, else nothing. -/
def hostTxnRequests (c : SignetConstants) (signedFills : List (Nat × SignedFill)) :
    List TransactionRequest :=
  match hmGet signedFills c.host.chainId with
  | some hostFill => [hostFill.toFillTx c.host.orders]
  | none => []

theorem foldl_push_eq_append_map {α β : Type} (g : α → β) :
    ∀ (orders : List α) (init : List β),
      orders.foldl (fun acc o => acc ++ [g o]) init = init ++ orders.map g := by
  intro orders
  induction orders with
  | nil => intro init; simp
  | cons o rest ih =>
    intro init
    simp only [List.foldl_cons, List.map_cons]
    rw [ih]
    simp

/-- C1: if the signed-fill map has an entry for the rollup chain id, the
rollup request list is that fill request followed by exactly one initiate
request per input order in input order; with no rollup fill it is exactly
the initiate requests in input order; and the host request list has at most
one element, the host fill, present iff the map has an entry for the host
chain id. -/
theorem rollup_fill_first_host_at_most_one (c : SignetConstants) (signerAddress : Nat)
    (signedFills : List (Nat × SignedFill)) (orders : List SignedOrder) :
    (∀ f, hmGet signedFills c.rollup.chainId = some f →
      rollupTxnRequests c signerAddress signedFills orders =
        f.toFillTx c.rollup.orders ::
          orders.map (fun o => o.toInitiateTx signerAddress c.rollup.orders)) ∧
    (hmGet signedFills c.rollup.chainId = none →
      rollupTxnRequests c signerAddress signedFills orders =
        orders.map (fun o => o.toInitiateTx signerAddress c.rollup.orders)) ∧
    (hostTxnRequests c signedFills).length ≤ 1 ∧
    (∀ f, hmGet signedFills c.host.chainId = some f →
      hostTxnRequests c signedFills = [f.toFillTx c.host.orders]) ∧
    (hmGet signedFills c.host.chainId = none → hostTxnRequests c signedFills = []) := by
  refine ⟨?_, ?_, ?_, ?_, ?_⟩
  · intro f hf
    simp only [rollupTxnRequests, hf]
    rw [foldl_push_eq_append_map]
    simp
  · intro hn
    simp only [rollupTxnRequests, hn]
    rw [foldl_push_eq_append_map]
    simp
  · simp only [hostTxnRequests]
    cases hmGet signedFills c.host.chainId <;> simp
  · intro f hf
    simp only [hostTxnRequests, hf]
  · intro hn
    simp only [hostTxnRequests, hn]

/-- Witness for `rollup_fill_first_host_at_most_one` at a concrete instance. -/
theorem rollup_fill_first_host_at_most_one_witness :
    rollupTxnRequests ⟨⟨14174, 40⟩, ⟨1, 41⟩, 7⟩ 99 [(14174, ⟨5⟩)] [⟨⟨⟨100⟩⟩, 1⟩, ⟨⟨⟨100⟩⟩, 2⟩] =
      (SignedFill.toFillTx ⟨5⟩ 40) ::
        List.map (fun o => SignedOrder.toInitiateTx o 99 40) [⟨⟨⟨100⟩⟩, 1⟩, ⟨⟨⟨100⟩⟩, 2⟩] :=
  (rollup_fill_first_host_at_most_one ⟨⟨14174, 40⟩, ⟨1, 41⟩, 7⟩ 99 [(14174, ⟨5⟩)]
    [⟨⟨⟨100⟩⟩, 1⟩, ⟨⟨⟨100⟩⟩, 2⟩]).1 ⟨5⟩ (by decide)

/-- `U256::to_string().parse::<u64>()`: the decimal rendering of the
deadline parses as a `u64` exactly when the value fits in 64 bits, and then
parses to itself. -/
def parseU64 (d : Nat) : Option Nat :=
  if d < 2 ^ 64 then some d else none

/-- A signed transaction envelope as returned by `Provider::fill` inside
`SendableTx::Envelope`: its hash and its EIP-2718 wire encoding. -/
structure TxEnvelope where
  hash : Nat
  encoded2718 : List Nat
deriving Repr, DecidableEq

/-- alloy `SendableTx`: either a fully-filled envelope or a still-unfilled
builder request. -/
inductive SendableTx where
  | envelope (filled : TxEnvelope) : SendableTx
  | builder (tx : TransactionRequest) : SendableTx
deriving Repr, DecidableEq

/-- The `SignedTx` struct of `filler.rs` (encoded bytes plus hash). -/
structure SignedTx where
  encoded : List Nat
  hash : Nat
deriving Repr, DecidableEq

/-- alloy `PendingTransactionConfig` as `watch_single` builds it. -/
structure PendingTransactionConfig where
  txHash : Nat
  requiredConfirmations : Nat
  timeoutSecs : Option Nat
deriving Repr, DecidableEq

/-- `PendingTransactionConfig::new(tx_hash)` (one required confirmation, no
timeout, per alloy's defaults). -/
def PendingTransactionConfig.new (h : Nat) : PendingTransactionConfig :=
  ⟨h, 1, none⟩

/-- `with_required_confirmations`. -/
def PendingTransactionConfig.withRequiredConfirmations
    (c : PendingTransactionConfig) (n : Nat) : PendingTransactionConfig :=
  { c with requiredConfirmations := n }

/-- `with_timeout`. -/
def PendingTransactionConfig.withTimeout
    (c : PendingTransactionConfig) (t : Option Nat) : PendingTransactionConfig :=
  { c with timeoutSecs := t }

deriving instance DecidableEq for Except

/-- The behaviour of one registered confirmation watch: the abstract time at
which its future settles, and the outcome it settles with (`Ok(hash)` or the
error produced on timeout / provider failure). -/
structure WatchHandle where
  settleTime : Nat
  outcome : Except String Nat
deriving Repr, DecidableEq

/-- A chain provider (`TxSenderProvider`) as the filler uses it, injected as
a record of response functions: `fill`, `get_chain_id`, `get_block_number`,
`watch_pending_transaction` (the latter returning the watch's settling
behaviour). -/
structure ProviderModel where
  fill : TransactionRequest → Except String SendableTx
  chainId : Except String Nat
  blockNumber : Except String Nat
  watch : PendingTransactionConfig → Except String WatchHandle

/-- Which chain a provider call went to (`"rollup"` / `"host"` labels of
`watch_single`). -/
inductive ChainLabel where
  | rollup : ChainLabel
  | host : ChainLabel
deriving Repr, DecidableEq

/-- `SignetEthBundle` as `filler.rs` constructs it: host transaction bytes
plus an `EthSendBundle`. -/
structure EthSendBundle where
  txs : List (List Nat)
  revertingTxHashes : List Nat
  blockNumber : Nat
  minTimestamp : Option Nat
  maxTimestamp : Option Nat
  replacementUuid : Option Nat
deriving Repr, DecidableEq

/-- `EthSendBundle::default()` for the `..Default::default()` fields. -/
def EthSendBundle.default : EthSendBundle :=
  ⟨[], [], 0, none, none, none⟩

/-- The `SignetEthBundle` variant used by `filler.rs` (`host_txs` field). -/
structure SignetEthBundle where
  hostTxs : List (List Nat)
  bundle : EthSendBundle
deriving Repr, DecidableEq

/-- The `SignetEthBundle` variant used by `bundle.rs` (`host_fills` field). -/
structure SignetEthBundleHostFills where
  hostFills : Option Nat
  bundle : EthSendBundle
deriving Repr, DecidableEq

/-- One external call performed by the pipeline; the traces of the
effectful functions are lists of these. -/
inductive Effect where
  /-- `UnsignedFill::sign(&self.signer)` on the given unsigned fill. -/
  | signCall (uf : UnsignedFill) : Effect
  /-- `provider.fill(tx)` with the fully-populated request. -/
  | providerFillCall (chain : ChainLabel) (tx : TransactionRequest) : Effect
  /-- `provider.get_chain_id()`. -/
  | getChainIdCall (chain : ChainLabel) : Effect
  /-- `provider.get_block_number()`. -/
  | getBlockNumberCall (chain : ChainLabel) : Effect
  /-- `tx_cache.forward_bundle(bundle)` from `filler.rs`. -/
  | forwardBundleCall (b : SignetEthBundle) : Effect
  /-- `tx_cache.forward_bundle(bundle)` from `bundle.rs`. -/
  | forwardBundleHostFillsCall (b : SignetEthBundleHostFills) : Effect
  /-- `provider.watch_pending_transaction(config)`. -/
  | watchCall (chain : ChainLabel) (cfg : PendingTransactionConfig) : Effect
deriving Repr, DecidableEq

/-- A trace of external calls, in program order. -/
abbrev Trace := List Effect

/-- The injected capabilities of a `Filler`: its signer (address plus the
`UnsignedFill::sign` capability), the two chain providers, the transaction
cache, and the system constants. -/
structure Env where
  signerAddress : Nat
  signFn : UnsignedFill → Except String (List (Nat × SignedFill))
  ruProvider : ProviderModel
  hostProvider : ProviderModel
  forwardBundle : SignetEthBundle → Except String Nat
  constants : SignetConstants

/-- `Filler::sign_fills`: bail on an empty order list; parse the first
order's permit deadline as `u64`; aggregate the orders; build the
`UnsignedFill` with that deadline and the system chain configuration; sign
it.  Returns the result together with the trace of signing calls. -/
def signFillsT (env : Env) (orders : List SignedOrder) :
    Except FillerError (List (Nat × SignedFill)) × Trace :=
  match orders with
  | [] => (.error .emptyOrderSet, [])
  | o :: _ =>
    match parseU64 o.permit.permit.deadline with
    | none => (.error .invalidDeadline, [])
    | some deadline =>
      let agg := aggregateOrders orders
      let unsignedFill :=
        ((UnsignedFill.fromAgg agg).withDeadline deadline).withChain env.constants.system
      match env.signFn unsignedFill with
      | .error e => (.error (.external e), [.signCall unsignedFill])
      | .ok signedFills => (.ok signedFills, [.signCall unsignedFill])

/-- C2: for a non-empty order list whose lead deadline fits in `u64`, the
`UnsignedFill` handed to the signing capability carries exactly the first
order's deadline (and the aggregate of all orders); when the lead deadline
does not parse as `u64` the step fails with the invalid-deadline error and
performs no signing call at all. -/
theorem sign_fills_deadline_from_first_order (env : Env) (o : SignedOrder)
    (rest : List SignedOrder) :
    (o.permit.permit.deadline < 2 ^ 64 →
      signFillsT env (o :: rest) =
        (let uf := ((UnsignedFill.fromAgg (aggregateOrders (o :: rest))).withDeadline
            o.permit.permit.deadline).withChain env.constants.system
        (match env.signFn uf with
          | .error e => .error (.external e)
          | .ok fills => .ok fills, [.signCall uf])) ∧
      ∀ uf, Effect.signCall uf ∈ (signFillsT env (o :: rest)).2 →
        uf.deadline = some o.permit.permit.deadline) ∧
    (¬ o.permit.permit.deadline < 2 ^ 64 →
      signFillsT env (o :: rest) = (.error .invalidDeadline, [])) := by
  constructor
  · intro hlt
    constructor
    · simp only [signFillsT, parseU64, if_pos hlt]
      cases h : env.signFn (((UnsignedFill.fromAgg (aggregateOrders (o :: rest))).withDeadline
          o.permit.permit.deadline).withChain env.constants.system) <;> simp [h]
    · intro uf hmem
      simp only [signFillsT, parseU64, if_pos hlt] at hmem
      rcases h : env.signFn (((UnsignedFill.fromAgg (aggregateOrders (o :: rest))).withDeadline
          o.permit.permit.deadline).withChain env.constants.system) with e | fills <;>
        simp only [h] at hmem <;>
        · simp only [List.mem_singleton, Effect.signCall.injEq] at hmem
          subst hmem
          rfl
  · intro hge
    simp only [signFillsT, parseU64, if_neg hge]

/-- Witness for `sign_fills_deadline_from_first_order`: lead deadline `77`
fits in `u64`, so the signed `UnsignedFill` carries deadline `77`; with an
oversized lead deadline the step fails with `invalidDeadline`. -/
theorem sign_fills_deadline_from_first_order_witness :
    (signFillsT ⟨9, fun _ => .ok [], ⟨fun _ => .error "", .error "", .error "", fun _ => .error ""⟩,
        ⟨fun _ => .error "", .error "", .error "", fun _ => .error ""⟩, fun _ => .error "",
        ⟨⟨14174, 40⟩, ⟨1, 41⟩, 7⟩⟩
      [⟨⟨⟨77⟩⟩, 1⟩, ⟨⟨⟨55⟩⟩, 2⟩]).2 = [.signCall ⟨⟨[⟨⟨⟨77⟩⟩, 1⟩, ⟨⟨⟨55⟩⟩, 2⟩]⟩, some 77, some 7⟩] ∧
    signFillsT ⟨9, fun _ => .ok [], ⟨fun _ => .error "", .error "", .error "", fun _ => .error ""⟩,
        ⟨fun _ => .error "", .error "", .error "", fun _ => .error ""⟩, fun _ => .error "",
        ⟨⟨14174, 40⟩, ⟨1, 41⟩, 7⟩⟩
      [⟨⟨⟨2 ^ 64⟩⟩, 1⟩] = (.error .invalidDeadline, []) := by
  constructor
  · have h := (sign_fills_deadline_from_first_order
      ⟨9, fun _ => .ok [], ⟨fun _ => .error "", .error "", .error "", fun _ => .error ""⟩,
        ⟨fun _ => .error "", .error "", .error "", fun _ => .error ""⟩, fun _ => .error "",
        ⟨⟨14174, 40⟩, ⟨1, 41⟩, 7⟩⟩ ⟨⟨⟨77⟩⟩, 1⟩ [⟨⟨⟨55⟩⟩, 2⟩]).1 (by norm_num)
    rw [h.1]
    rfl
  · exact (sign_fills_deadline_from_first_order
      ⟨9, fun _ => .ok [], ⟨fun _ => .error "", .error "", .error "", fun _ => .error ""⟩,
        ⟨fun _ => .error "", .error "", .error "", fun _ => .error ""⟩, fun _ => .error "",
        ⟨⟨14174, 40⟩, ⟨1, 41⟩, 7⟩⟩ ⟨⟨⟨2 ^ 64⟩⟩, 1⟩ []).2 (by norm_num)

/-- The field population applied to every request at the top of
`sign_and_encode_txns`: `with_from(signer.address())`,
`with_gas_limit(DEFAULT_GAS_LIMIT)`,
`with_max_priority_fee_per_gas(GWEI_TO_WEI * DEFAULT_PRIORITY_FEE_MULTIPLIER)`. -/
def populateTx (signerAddress : Nat) (tx : TransactionRequest) : TransactionRequest :=
  ((tx.withFrom signerAddress).withGasLimit DEFAULT_GAS_LIMIT).withMaxPriorityFeePerGas
    (GWEI_TO_WEI * DEFAULT_PRIORITY_FEE_MULTIPLIER)

/-- `Filler::sign_and_encode_txns`: for each request in order, populate its
fields, call `provider.fill`, require an `Envelope`, query the chain id (for
the log line), and record the encoded bytes and hash; the first failing step
aborts the whole loop via `?` / `bail!`. -/
def signAndEncodeTxnsT (p : ProviderModel) (chain : ChainLabel) (signerAddress : Nat) :
    List TransactionRequest → Except FillerError (List SignedTx) × Trace
  | [] => (.ok [], [])
  | tx :: rest =>
    let tx' := populateTx signerAddress tx
    match p.fill tx' with
    | .error e => (.error (.external e), [.providerFillCall chain tx'])
    | .ok (.builder _) => (.error .fillFailed, [.providerFillCall chain tx'])
    | .ok (.envelope filled) =>
      match p.chainId with
      | .error e => (.error (.external e), [.providerFillCall chain tx', .getChainIdCall chain])
      | .ok _ =>
        match signAndEncodeTxnsT p chain signerAddress rest with
        | (.error e, t) =>
          (.error e, .providerFillCall chain tx' :: .getChainIdCall chain :: t)
        | (.ok outs, t) =>
          (.ok (⟨filled.encoded2718, filled.hash⟩ :: outs),
            .providerFillCall chain tx' :: .getChainIdCall chain :: t)

/-- The processing of one request inside the `sign_and_encode_txns` loop,
as a standalone function, used to state per-element correspondence. -/
def encodeOne (p : ProviderModel) (signerAddress : Nat) (tx : TransactionRequest) :
    Except FillerError SignedTx :=
  let tx' := populateTx signerAddress tx
  match p.fill tx' with
  | .error e => .error (.external e)
  | .ok (.builder _) => .error .fillFailed
  | .ok (.envelope filled) =>
    match p.chainId with
    | .error e => .error (.external e)
    | .ok _ => .ok ⟨filled.encoded2718, filled.hash⟩

/-- C4: the encoding step is all-or-nothing and order preserving.  If it
returns a list, that list has one `SignedTx` per input request, and the
`i`-th output is exactly the successful encoding of the `i`-th input; if
encoding any single request fails, the whole call fails (no partial list is
ever returned). -/
theorem sign_and_encode_atomic_order_preserving (p : ProviderModel) (chain : ChainLabel)
    (signerAddress : Nat) (reqs : List TransactionRequest) :
    (∀ out, (signAndEncodeTxnsT p chain signerAddress reqs).1 = .ok out →
      out.length = reqs.length ∧
      ∀ i (h : i < reqs.length) (h2 : i < out.length),
        encodeOne p signerAddress (reqs.get ⟨i, h⟩) = .ok (out.get ⟨i, h2⟩)) ∧
    (∀ i (h : i < reqs.length) e, encodeOne p signerAddress (reqs.get ⟨i, h⟩) = .error e →
      ∃ e', (signAndEncodeTxnsT p chain signerAddress reqs).1 = .error e') := by
  induction reqs with
  | nil =>
    refine ⟨?_, ?_⟩
    · intro out hout
      simp only [signAndEncodeTxnsT] at hout
      cases hout
      simp
    · intro i h
      simp at h
  | cons tx rest ih =>
    refine ⟨?_, ?_⟩
    · intro out hout
      simp only [signAndEncodeTxnsT] at hout
      rcases hfill : p.fill (populateTx signerAddress tx) with e | stx
      · simp [hfill] at hout
      rcases stx with filled | btx
      · rcases hcid : p.chainId with e | cid
        · simp [hfill, hcid] at hout
        · rcases hrest : signAndEncodeTxnsT p chain signerAddress rest with ⟨r, t⟩
          rcases r with e | outs
          · simp [hfill, hcid, hrest] at hout
          · simp only [hfill, hcid, hrest] at hout
            cases hout
            have hr := (ih.1 outs (by rw [hrest]))
            refine ⟨by simpa using hr.1, ?_⟩
            intro i hi h2
            cases i with
            | zero => simp [encodeOne, hfill, hcid]
            | succ j =>
              simp only [List.get_cons_succ]
              exact hr.2 j (by simpa using hi) (by simpa using h2)
      · simp [hfill] at hout
    · intro i hi e henc
      cases i with
      | zero =>
        simp only [List.get] at henc
        simp only [signAndEncodeTxnsT]
        simp only [encodeOne] at henc
        rcases hfill : p.fill (populateTx signerAddress tx) with e' | stx
        · exact ⟨.external e', by simp [hfill]⟩
        rcases stx with filled | btx
        · rcases hcid : p.chainId with e' | cid
          · exact ⟨.external e', by simp [hfill, hcid]⟩
          · simp [hfill, hcid] at henc
        · exact ⟨.fillFailed, by simp [hfill]⟩
      | succ j =>
        simp only [List.get_cons_succ] at henc
        have hj := ih.2 j (by simpa using hi) e henc
        rcases hj with ⟨e', he'⟩
        simp only [signAndEncodeTxnsT]
        rcases hfill : p.fill (populateTx signerAddress tx) with e'' | stx
        · exact ⟨.external e'', by simp [hfill]⟩
        rcases stx with filled | btx
        · rcases hcid : p.chainId with e'' | cid
          · exact ⟨.external e'', by simp [hfill, hcid]⟩
          · rcases hrest : signAndEncodeTxnsT p chain signerAddress rest with ⟨r, t⟩
            rcases r with e3 | outs
            · exact ⟨e3, by simp [hfill, hcid, hrest]⟩
            · rw [hrest] at he'
              simp at he'
        · exact ⟨.fillFailed, by simp [hfill]⟩

/-- Witness for `sign_and_encode_atomic_order_preserving`: a provider that
fills every request into an envelope with hash 3 yields a one-element list
for a one-element input, and its element is the encoding of the input. -/
theorem sign_and_encode_atomic_order_preserving_witness :
    ([⟨[1, 2], 3⟩] : List SignedTx).length = [TransactionRequest.default].length ∧
      encodeOne ⟨fun _ => .ok (.envelope ⟨3, [1, 2]⟩), .ok 14174, .ok 5, fun _ => .error ""⟩ 9
          TransactionRequest.default = .ok ⟨[1, 2], 3⟩ := by
  have h := (sign_and_encode_atomic_order_preserving
    ⟨fun _ => .ok (.envelope ⟨3, [1, 2]⟩), .ok 14174, .ok 5, fun _ => .error ""⟩ .rollup 9
    [TransactionRequest.default]).1 [⟨[1, 2], 3⟩] (by rfl)
  exact ⟨h.1, by simpa using h.2 0 (by decide) (by decide)⟩

theorem signAndEncode_trace_shape (p : ProviderModel) (chain : ChainLabel) (a : Nat) :
    ∀ (reqs : List TransactionRequest) (e : Effect),
      e ∈ (signAndEncodeTxnsT p chain a reqs).2 →
      (∃ tx, tx ∈ reqs ∧ e = .providerFillCall chain (populateTx a tx)) ∨
        e = .getChainIdCall chain := by
  intro reqs
  induction reqs with
  | nil => intro e he; simp [signAndEncodeTxnsT] at he
  | cons tx rest ih =>
    intro e he
    simp only [signAndEncodeTxnsT] at he
    rcases hfill : p.fill (populateTx a tx) with err | stx
    · simp only [hfill, List.mem_singleton] at he
      exact Or.inl ⟨tx, List.mem_cons_self _ _, he⟩
    rcases stx with filled | btx
    · rcases hcid : p.chainId with err | cid
      · simp only [hfill, hcid, List.mem_cons, List.mem_singleton] at he
        rcases he with he | he | he
        · exact Or.inl ⟨tx, List.mem_cons_self _ _, he⟩
        · exact Or.inr he
        · simp at he
      · rcases hrest : signAndEncodeTxnsT p chain a rest with ⟨r, t⟩
        rcases r with err | outs <;>
        · simp only [hfill, hcid, hrest, List.mem_cons] at he
          rcases he with he | he | he
          · exact Or.inl ⟨tx, List.mem_cons_self _ _, he⟩
          · exact Or.inr he
          · rcases ih e (by rw [hrest]; exact he) with ⟨tx2, htx2, heq⟩ | hg
            · exact Or.inl ⟨tx2, List.mem_cons_of_mem _ htx2, heq⟩
            · exact Or.inr hg
    · simp only [hfill, List.mem_singleton] at he
      exact Or.inl ⟨tx, List.mem_cons_self _ _, he⟩

/-- C10: every request handed to `provider.fill` by the encoding step — on
either chain, whatever its payload and incoming fields — carries the filler
signer's address as sender, gas limit exactly 1000000, and max priority fee
per gas exactly 16000000000 wei. -/
theorem encoder_overrides_sender_gas_fee (p : ProviderModel) (chain : ChainLabel)
    (signerAddress : Nat) (reqs : List TransactionRequest) :
    ∀ c tx', Effect.providerFillCall c tx' ∈ (signAndEncodeTxnsT p chain signerAddress reqs).2 →
      tx'.sender = some signerAddress ∧ tx'.gasLimit = some 1000000 ∧
        tx'.maxPriorityFeePerGas = some 16000000000 := by
  intro c tx' hmem
  rcases signAndEncode_trace_shape p chain signerAddress reqs _ hmem with ⟨tx, _, heq⟩ | hg
  · simp only [Effect.providerFillCall.injEq] at heq
    obtain ⟨rfl, h2⟩ := heq
    subst h2
    exact ⟨rfl, rfl, rfl⟩
  · simp at hg

/-- A request arriving at the encoder with contrary sender/gas/fee values
already set. -/
def contraryRequest : TransactionRequest :=
  ⟨.plain, none, none, some 1, some 2, some 3⟩

/-- Witness for `encoder_overrides_sender_gas_fee`: the single fill call
made for a request that arrives with different sender/gas/fee values carries
the overridden values. -/
theorem encoder_overrides_sender_gas_fee_witness :
    (populateTx 9 contraryRequest).sender = some 9 ∧
      (populateTx 9 contraryRequest).gasLimit = some 1000000 ∧
      (populateTx 9 contraryRequest).maxPriorityFeePerGas = some 16000000000 :=
  encoder_overrides_sender_gas_fee
    ⟨fun _ => .error "x", .error "", .error "", fun _ => .error ""⟩ .host 9
    [contraryRequest] .host (populateTx 9 contraryRequest)
    (by simp [signAndEncodeTxnsT])

/-- The timed result of one confirmation-watch future: when it settles and
with what result. -/
structure TimedResult where
  time : Nat
  result : Except FillerError Unit
deriving Repr, DecidableEq

/-- The `PendingTransactionConfig` built by `Filler::watch_single`:
`new(tx_hash).with_required_confirmations(1)
.with_timeout(Some(Duration::from_secs(300)))`. -/
def watchConfig (txHash : Nat) : PendingTransactionConfig :=
  ((PendingTransactionConfig.new txHash).withRequiredConfirmations 1).withTimeout (some 300)

/-- `Filler::watch_single` as a timed future: registering the watch
(`watch_pending_transaction(...).await?`) may fail immediately; otherwise
the future settles at the handle's settle time with `Ok` on a confirmed
receipt or the wrapped error on timeout / provider failure. -/
def watchSingleTimed (p : ProviderModel) (txHash : Nat) : TimedResult :=
  match p.watch (watchConfig txHash) with
  | .error e => ⟨0, .error (.external e)⟩
  | .ok h =>
    match h.outcome with
    | .error e => ⟨h.settleTime, .error (.external e)⟩
    | .ok _ => ⟨h.settleTime, .ok ()⟩

/-- The earliest failure among a list of timed futures: its settle time, its
index, and its error; ties in time are broken towards the earlier index
(the poll order of `try_join_all`).  `none` when every future succeeds. -/
def pickFirstFailureAux : Nat → List TimedResult → Option (Nat × Nat × FillerError)
  | _, [] => none
  | i, w :: rest =>
    match w.result with
    | .error e =>
      match pickFirstFailureAux (i + 1) rest with
      | none => some (w.time, i, e)
      | some g => if w.time ≤ g.1 then some (w.time, i, e) else some g
    | .ok _ => pickFirstFailureAux (i + 1) rest

/-- The earliest failure of a list of timed futures, indices from 0. -/
def pickFirstFailure (ws : List TimedResult) : Option (Nat × Nat × FillerError) :=
  pickFirstFailureAux 0 ws

/-- `futures::future::try_join_all`, result component: `Ok` when every
future succeeds, else the error of the earliest failure. -/
def tryJoinAllResult (ws : List TimedResult) : Except FillerError Unit :=
  match pickFirstFailure ws with
  | none => .ok ()
  | some (_, _, e) => .error e

/-- Which futures have settled when `try_join_all` at time `tstar` returns
the failure of the future at index `jstar`: those that completed strictly
earlier, and those completing at `tstar` polled no later than `jstar`. -/
def settledFlagsAux (tstar jstar : Nat) : Nat → List TimedResult → List Bool
  | _, [] => []
  | i, w :: rest =>
    decide (w.time < tstar ∨ (w.time = tstar ∧ i ≤ jstar)) ::
      settledFlagsAux tstar jstar (i + 1) rest

/-- `futures::future::try_join_all`, settlement component: which of the
futures ran to completion.  On overall success all of them do; on failure
the remaining in-flight futures are dropped (cancelled) when the first
error returns. -/
def tryJoinSettled (ws : List TimedResult) : List Bool :=
  match pickFirstFailure ws with
  | none => ws.map fun _ => true
  | some (tf, j, _) => settledFlagsAux tf j 0 ws

/-- The list of watch futures built by `Filler::watch_confirmations`:
one per rollup hash, then one per host hash. -/
def watchers (env : Env) (ruHashes hostHashes : List Nat) : List TimedResult :=
  ruHashes.map (fun h => watchSingleTimed env.ruProvider h) ++
    hostHashes.map (fun h => watchSingleTimed env.hostProvider h)

/-- `Filler::watch_confirmations`: start one watch per expected hash and
`try_join_all` them.  The trace records the watch registration calls (each
future is polled at least once before any of them completes). -/
def watchConfirmationsT (env : Env) (ruHashes hostHashes : List Nat) :
    Except FillerError Unit × Trace :=
  (tryJoinAllResult (watchers env ruHashes hostHashes),
    ruHashes.map (fun h => Effect.watchCall .rollup (watchConfig h)) ++
      hostHashes.map (fun h => Effect.watchCall .host (watchConfig h)))

/-- Which of the watches of `Filler::watch_confirmations` run to
completion. -/
def watchSettledFlags (env : Env) (ruHashes hostHashes : List Nat) : List Bool :=
  tryJoinSettled (watchers env ruHashes hostHashes)

theorem pickFirstFailureAux_eq_none_iff :
    ∀ (ws : List TimedResult) (i : Nat),
      pickFirstFailureAux i ws = none ↔ ∀ w ∈ ws, w.result = .ok () := by
  intro ws
  induction ws with
  | nil => intro i; simp [pickFirstFailureAux]
  | cons w rest ih =>
    intro i
    simp only [pickFirstFailureAux]
    rcases hres : w.result with e | u
    · constructor
      · intro hcontra
        exfalso
        rcases hrest : pickFirstFailureAux (i + 1) rest with _ | g
        · simp [hrest] at hcontra
        · rw [hrest] at hcontra
          by_cases hle : w.time ≤ g.1 <;> simp [hle] at hcontra
      · intro hall
        have := hall w (List.mem_cons_self _ _)
        rw [hres] at this
        cases this
    · cases u
      rw [ih (i + 1)]
      constructor
      · intro hall w' hw'
        rcases List.mem_cons.1 hw' with rfl | hmem
        · exact hres
        · exact hall w' hmem
      · intro hall w' hw'
        exact hall w' (List.mem_cons_of_mem _ hw')

/-- C6: the confirmation step starts exactly one watch per expected hash —
rollup hashes then host hashes — each requiring one confirmation with a
300-second timeout, and it returns success exactly when every individual
watch confirms; a watch timing out or erroring makes the whole step fail. -/
theorem watch_confirmations_one_per_hash_all_confirm (env : Env)
    (ruHashes hostHashes : List Nat) :
    (watchConfirmationsT env ruHashes hostHashes).2 =
        ruHashes.map (fun h => Effect.watchCall .rollup ⟨h, 1, some 300⟩) ++
          hostHashes.map (fun h => Effect.watchCall .host ⟨h, 1, some 300⟩) ∧
    ((watchConfirmationsT env ruHashes hostHashes).1 = .ok () ↔
      (∀ h ∈ ruHashes, (watchSingleTimed env.ruProvider h).result = .ok ()) ∧
        (∀ h ∈ hostHashes, (watchSingleTimed env.hostProvider h).result = .ok ())) := by
  constructor
  · rfl
  · have hok : (watchConfirmationsT env ruHashes hostHashes).1 = .ok () ↔
        pickFirstFailure (watchers env ruHashes hostHashes) = none := by
      simp only [watchConfirmationsT, tryJoinAllResult]
      rcases h : pickFirstFailure (watchers env ruHashes hostHashes) with _ | ⟨t, j, e⟩ <;>
        simp [h]
    rw [hok, pickFirstFailure, pickFirstFailureAux_eq_none_iff]
    simp only [watchers, List.mem_append, List.mem_map]
    constructor
    · intro hall
      constructor
      · intro h hh
        exact hall _ (Or.inl ⟨h, hh, rfl⟩)
      · intro h hh
        exact hall _ (Or.inr ⟨h, hh, rfl⟩)
    · intro ⟨hru, hhost⟩ w hw
      rcases hw with ⟨h, hh, rfl⟩ | ⟨h, hh, rfl⟩
      · exact hru h hh
      · exact hhost h hh

theorem settledFlagsAux_length (tstar jstar : Nat) :
    ∀ (ws : List TimedResult) (k : Nat), (settledFlagsAux tstar jstar k ws).length = ws.length := by
  intro ws
  induction ws with
  | nil => intro k; rfl
  | cons w rest ih => intro k; simp [settledFlagsAux, ih]

theorem settledFlagsAux_get (tstar jstar : Nat) :
    ∀ (ws : List TimedResult) (k i : Nat) (h : i < ws.length)
      (h2 : i < (settledFlagsAux tstar jstar k ws).length),
      (settledFlagsAux tstar jstar k ws).get ⟨i, h2⟩ =
        decide ((ws.get ⟨i, h⟩).time < tstar ∨
          ((ws.get ⟨i, h⟩).time = tstar ∧ k + i ≤ jstar)) := by
  intro ws
  induction ws with
  | nil => intro k i h; simp at h
  | cons w rest ih =>
    intro k i h h2
    cases i with
    | zero => simp [settledFlagsAux]
    | succ m =>
      simp only [settledFlagsAux, List.get_cons_succ]
      rw [ih (k + 1) m (by simpa using h)]
      have : k + 1 + m = k + (m + 1) := by omega
      rw [this]

/-- The claim that a failing watch lets every other watch settle is false:
with a rollup watch failing at time 1 and a host watch that would settle at
time 5, the step reports the failure while the host watch is cancelled,
never settling. -/
theorem watch_waits_for_all_counterexample :
    (watchConfirmationsT
        ⟨9, fun _ => .ok [],
          ⟨fun _ => .error "", .error "", .error "", fun _ => .ok ⟨1, .error "timed out"⟩⟩,
          ⟨fun _ => .error "", .error "", .error "", fun _ => .ok ⟨5, .ok 22⟩⟩,
          fun _ => .error "", ⟨⟨14174, 40⟩, ⟨1, 41⟩, 7⟩⟩
        [11] [22]).1 = .error (.external "timed out") ∧
    watchSettledFlags
        ⟨9, fun _ => .ok [],
          ⟨fun _ => .error "", .error "", .error "", fun _ => .ok ⟨1, .error "timed out"⟩⟩,
          ⟨fun _ => .error "", .error "", .error "", fun _ => .ok ⟨5, .ok 22⟩⟩,
          fun _ => .error "", ⟨⟨14174, 40⟩, ⟨1, 41⟩, 7⟩⟩
        [11] [22] = [true, false] := by
  constructor <;> rfl

/-- C7 as amended: when some watch fails, the confirmation step returns the
error of the earliest failure as soon as it settles, and every watch that
would settle strictly later is cancelled (dropped un-settled) rather than
awaited. -/
theorem watch_first_failure_cancels_pending (env : Env) (ruHashes hostHashes : List Nat)
    (t j : Nat) (e : FillerError)
    (hpick : pickFirstFailure (watchers env ruHashes hostHashes) = some (t, j, e)) :
    (watchConfirmationsT env ruHashes hostHashes).1 = .error e ∧
    ∀ i (h : i < (watchers env ruHashes hostHashes).length),
      t < ((watchers env ruHashes hostHashes).get ⟨i, h⟩).time →
      ∀ h2 : i < (watchSettledFlags env ruHashes hostHashes).length,
        (watchSettledFlags env ruHashes hostHashes).get ⟨i, h2⟩ = false := by
  constructor
  · simp [watchConfirmationsT, tryJoinAllResult, hpick]
  · intro i h hlate h2
    have hflags : watchSettledFlags env ruHashes hostHashes =
        settledFlagsAux t j 0 (watchers env ruHashes hostHashes) := by
      simp [watchSettledFlags, tryJoinSettled, hpick]
    have h2' : i < (settledFlagsAux t j 0 (watchers env ruHashes hostHashes)).length := by
      rw [settledFlagsAux_length]
      exact h
    have := settledFlagsAux_get t j (watchers env ruHashes hostHashes) 0 i h h2'
    have hval : (watchSettledFlags env ruHashes hostHashes).get ⟨i, h2⟩ =
        (settledFlagsAux t j 0 (watchers env ruHashes hostHashes)).get ⟨i, h2'⟩ := by
      rw [List.get_of_eq hflags]
    rw [hval, this]
    simp only [decide_eq_false_iff_not]
    push_neg
    constructor
    · omega
    · intro heq
      omega

/-- Witness for `watch_first_failure_cancels_pending`: one failing rollup
watch settling at time 2 and one host watch settling at time 9; the step
reports the failure and the host watch is cancelled. -/
theorem watch_first_failure_cancels_pending_witness :
    (watchConfirmationsT
        ⟨8, fun _ => .ok [],
          ⟨fun _ => .error "", .error "", .error "", fun _ => .ok ⟨2, .error "boom"⟩⟩,
          ⟨fun _ => .error "", .error "", .error "", fun _ => .ok ⟨9, .ok 5⟩⟩,
          fun _ => .error "", ⟨⟨14174, 40⟩, ⟨1, 41⟩, 7⟩⟩
        [13] [14]).1 = .error (.external "boom") := by
  have h := watch_first_failure_cancels_pending
    ⟨8, fun _ => .ok [],
      ⟨fun _ => .error "", .error "", .error "", fun _ => .ok ⟨2, .error "boom"⟩⟩,
      ⟨fun _ => .error "", .error "", .error "", fun _ => .ok ⟨9, .ok 5⟩⟩,
      fun _ => .error "", ⟨⟨14174, 40⟩, ⟨1, 41⟩, 7⟩⟩
    [13] [14] 2 0 (.external "boom") (by rfl)
  exact h.1

/-- The `SignetEthBundle` built by `Filler::send_bundle`: host transactions
plus an `EthSendBundle` with the rollup transactions, the target block
number, and defaulted remaining fields (`..Default::default()`). -/
def mkFillerBundle (ruTxs hostTxs : List (List Nat)) (targetRuBlockNumber : Nat) :
    SignetEthBundle :=
  { hostTxs := hostTxs
    bundle := { EthSendBundle.default with txs := ruTxs, blockNumber := targetRuBlockNumber } }

/-- `Filler::send_bundle`: construct the bundle and forward it to the
transaction cache. -/
def sendBundleT (env : Env) (ruTxs hostTxs : List (List Nat)) (targetRuBlockNumber : Nat) :
    Except FillerError Unit × Trace :=
  let bundle := mkFillerBundle ruTxs hostTxs targetRuBlockNumber
  match env.forwardBundle bundle with
  | .error e => (.error (.external e), [.forwardBundleCall bundle])
  | .ok _ => (.ok (), [.forwardBundleCall bundle])

/-- The `?` operator on a traced step: an error short-circuits with the
trace so far; a success feeds the value to the continuation and appends the
continuation's trace. -/
def stepT {α β : Type} (x : Except FillerError α × Trace)
    (f : α → Except FillerError β × Trace) : Except FillerError β × Trace :=
  match x with
  | (.error e, t) => (.error e, t)
  | (.ok a, t) => ((f a).1, t ++ (f a).2)

/-- `provider.get_block_number()` as a traced step. -/
def blockNumberT (p : ProviderModel) (chain : ChainLabel) : Except FillerError Nat × Trace :=
  match p.blockNumber with
  | .error e => (.error (.external e), [.getBlockNumberCall chain])
  | .ok n => (.ok n, [.getBlockNumberCall chain])

/-- `Filler::fill`: bail on an empty order list, sign the fills, build and
encode the rollup transactions, build and encode the host transactions,
query the latest rollup block number, send the bundle targeting the next
block, and watch all transaction hashes for confirmation.  Each step's
failure aborts the pipeline (`?`, rendered with `stepT`); the trace records
the external calls in program order. -/
def fillT (env : Env) (orders : List SignedOrder) : Except FillerError Unit × Trace :=
  if orders.isEmpty then (.error .emptyOrderSet, [])
  else
    stepT (signFillsT env orders) fun signedFills =>
    stepT (signAndEncodeTxnsT env.ruProvider .rollup env.signerAddress
        (rollupTxnRequests env.constants env.signerAddress signedFills orders))
      fun rollupSigned =>
    stepT (signAndEncodeTxnsT env.hostProvider .host env.signerAddress
        (hostTxnRequests env.constants signedFills)) fun hostSigned =>
    stepT (blockNumberT env.ruProvider .rollup) fun latestRuBlockNumber =>
    stepT (sendBundleT env (rollupSigned.map (·.encoded)) (hostSigned.map (·.encoded))
        (latestRuBlockNumber + 1)) fun _ =>
    watchConfirmationsT env (rollupSigned.map (·.hash)) (hostSigned.map (·.hash))

/-- `Filler::fill_individually`: submit one single-order fill per order,
sequentially; the `?` on each `fill` call propagates the first failure and
stops the loop. -/
def fillIndividuallyT (env : Env) : List SignedOrder → Except FillerError Unit × Trace
  | [] => (.ok (), [])
  | o :: rest => stepT (fillT env [o]) fun _ => fillIndividuallyT env rest

theorem stepT_error_elim {α β : Type} (x : Except FillerError α × Trace)
    (f : α → Except FillerError β × Trace) (e : FillerError)
    (h : (stepT x f).1 = .error e) :
    x.1 = .error e ∨ ∃ a, x.1 = .ok a ∧ (f a).1 = .error e := by
  rcases x with ⟨r, t⟩
  rcases r with e1 | a
  · simp only [stepT] at h
    refine Or.inl ?_
    simpa using h
  · simp only [stepT] at h
    exact Or.inr ⟨a, rfl, h⟩

theorem stepT_trace_mem {α β : Type} (x : Except FillerError α × Trace)
    (f : α → Except FillerError β × Trace) (eff : Effect)
    (h : eff ∈ (stepT x f).2) :
    eff ∈ x.2 ∨ ∃ a, x.1 = .ok a ∧ eff ∈ (f a).2 := by
  rcases x with ⟨r, t⟩
  rcases r with e1 | a
  · exact Or.inl h
  · simp only [stepT, List.mem_append] at h
    rcases h with h | h
    · exact Or.inl h
    · exact Or.inr ⟨a, rfl, h⟩

/-- C9: an empty order list makes `fill_individually` succeed with no
external call at all, while `fill` rejects it with the empty-order-set
error (also before any external call). -/
theorem fill_individually_empty_succeeds_fill_errors (env : Env) :
    fillIndividuallyT env [] = (.ok (), []) ∧
      fillT env [] = (.error .emptyOrderSet, []) :=
  ⟨rfl, rfl⟩

/-- The environment of the C8 failing input: a signer capability that
refuses to sign, everything else immaterial. -/
def refusingSignerEnv : Env :=
  ⟨9, fun _ => .error "signer refused",
    ⟨fun _ => .error "", .error "", .error "", fun _ => .error ""⟩,
    ⟨fun _ => .error "", .error "", .error "", fun _ => .error ""⟩,
    fun _ => .error "", ⟨⟨14174, 40⟩, ⟨1, 41⟩, 7⟩⟩

/-- C8 evaluated at its failing input: with two orders and a fill attempt
for the first order failing (signer refuses), `fill_individually` aborts
with that error after a single signing call — the trace shows no attempt of
any kind for the second order, contradicting the fill-individually isolation
property (one order's failure not blocking the others) stated by the spec
and by the function's own doc comment. -/
theorem fill_individually_stops_at_first_failure :
    fillIndividuallyT refusingSignerEnv [⟨⟨⟨50⟩⟩, 1⟩, ⟨⟨⟨60⟩⟩, 2⟩] =
      (.error (.external "signer refused"),
        [.signCall ⟨⟨[⟨⟨⟨50⟩⟩, 1⟩]⟩, some 50, some 7⟩]) := by
  rfl

theorem signFillsT_cons_error (env : Env) (o : SignedOrder) (rest : List SignedOrder)
    (e : FillerError) (h : (signFillsT env (o :: rest)).1 = .error e) :
    e = .invalidDeadline ∨ ∃ s, e = .external s := by
  simp only [signFillsT] at h
  rcases hp : parseU64 o.permit.permit.deadline with _ | d
  · simp only [hp] at h
    exact Or.inl (Except.error.inj h).symm
  · simp only [hp] at h
    rcases hs : env.signFn (((UnsignedFill.fromAgg (aggregateOrders (o :: rest))).withDeadline
        d).withChain env.constants.system) with s | fills
    · simp only [hs] at h
      exact Or.inr ⟨s, (Except.error.inj h).symm⟩
    · simp only [hs] at h
      exact Except.noConfusion h

theorem signAndEncodeTxnsT_error_shape (p : ProviderModel) (chain : ChainLabel) (a : Nat) :
    ∀ (reqs : List TransactionRequest) (e : FillerError),
      (signAndEncodeTxnsT p chain a reqs).1 = .error e →
      e = .fillFailed ∨ ∃ s, e = .external s := by
  intro reqs
  induction reqs with
  | nil => intro e h; simp [signAndEncodeTxnsT] at h
  | cons tx rest ih =>
    intro e h
    simp only [signAndEncodeTxnsT] at h
    rcases hfill : p.fill (populateTx a tx) with s | stx
    · simp only [hfill] at h
      exact Or.inr ⟨s, (Except.error.inj h).symm⟩
    rcases stx with filled | btx
    · rcases hcid : p.chainId with s | cid
      · simp only [hfill, hcid] at h
        exact Or.inr ⟨s, (Except.error.inj h).symm⟩
      · rcases hrest : signAndEncodeTxnsT p chain a rest with ⟨r, t⟩
        rcases r with e2 | outs
        · simp only [hfill, hcid, hrest] at h
          exact (Except.error.inj h) ▸ ih e2 (by rw [hrest])
        · simp only [hfill, hcid, hrest] at h
          exact Except.noConfusion h
    · simp only [hfill] at h
      exact Or.inl (Except.error.inj h).symm

theorem pickFirstFailureAux_error_mem :
    ∀ (ws : List TimedResult) (i t j : Nat) (e : FillerError),
      pickFirstFailureAux i ws = some (t, j, e) → ∃ w ∈ ws, w.result = .error e := by
  intro ws
  induction ws with
  | nil => intro i t j e h; simp [pickFirstFailureAux] at h
  | cons w rest ih =>
    intro i t j e h
    simp only [pickFirstFailureAux] at h
    rcases hres : w.result with e2 | u
    · simp only [hres] at h
      rcases hrest : pickFirstFailureAux (i + 1) rest with _ | g
      · simp only [hrest, Option.some.injEq, Prod.mk.injEq] at h
        exact ⟨w, List.mem_cons_self _ _, by rw [hres, h.2.2]⟩
      · simp only [hrest] at h
        by_cases hle : w.time ≤ g.1
        · simp only [if_pos hle, Option.some.injEq, Prod.mk.injEq] at h
          exact ⟨w, List.mem_cons_self _ _, by rw [hres, h.2.2]⟩
        · simp only [if_neg hle, Option.some.injEq] at h
          obtain ⟨w', hw', hres'⟩ := ih (i + 1) t j e (by rw [hrest, h])
          exact ⟨w', List.mem_cons_of_mem _ hw', hres'⟩
    · simp only [hres] at h
      obtain ⟨w', hw', hres'⟩ := ih (i + 1) t j e h
      exact ⟨w', List.mem_cons_of_mem _ hw', hres'⟩

theorem watchSingleTimed_error_external (p : ProviderModel) (txHash : Nat) (e : FillerError)
    (he : (watchSingleTimed p txHash).result = .error e) : ∃ s, e = .external s := by
  simp only [watchSingleTimed] at he
  rcases hw : p.watch (watchConfig txHash) with s | hd
  · simp only [hw] at he
    exact ⟨s, (Except.error.inj he).symm⟩
  · rcases ho : hd.outcome with s | v
    · simp only [hw, ho] at he
      exact ⟨s, (Except.error.inj he).symm⟩
    · simp only [hw, ho] at he
      exact Except.noConfusion he

theorem watchConfirmationsT_error_external (env : Env) (ruHashes hostHashes : List Nat)
    (e : FillerError) (h : (watchConfirmationsT env ruHashes hostHashes).1 = .error e) :
    ∃ s, e = .external s := by
  simp only [watchConfirmationsT, tryJoinAllResult] at h
  rcases hp : pickFirstFailure (watchers env ruHashes hostHashes) with _ | ⟨t, j, e2⟩
  · simp [hp] at h
  · simp only [hp] at h
    obtain ⟨w, hw, hres⟩ :=
      pickFirstFailureAux_error_mem (watchers env ruHashes hostHashes) 0 t j e2 hp
    simp only [watchers, List.mem_append, List.mem_map] at hw
    have he2 : ∃ s, e2 = .external s := by
      rcases hw with ⟨a, _, rfl⟩ | ⟨a, _, rfl⟩
      · exact watchSingleTimed_error_external _ _ _ hres
      · exact watchSingleTimed_error_external _ _ _ hres
    exact (Except.error.inj h) ▸ he2

theorem sendBundleT_error_external (env : Env) (ruTxs hostTxs : List (List Nat))
    (target : Nat) (e : FillerError) (h : (sendBundleT env ruTxs hostTxs target).1 = .error e) :
    ∃ s, e = .external s := by
  simp only [sendBundleT] at h
  rcases hf : env.forwardBundle (mkFillerBundle ruTxs hostTxs target) with s | bid
  · simp only [hf] at h
    exact ⟨s, (Except.error.inj h).symm⟩
  · simp only [hf] at h
    exact Except.noConfusion h

theorem blockNumberT_error_external (p : ProviderModel) (chain : ChainLabel) (e : FillerError)
    (h : (blockNumberT p chain).1 = .error e) : ∃ s, e = .external s := by
  simp only [blockNumberT] at h
  rcases hb : p.blockNumber with s | n
  · simp only [hb] at h
    exact ⟨s, (Except.error.inj h).symm⟩
  · simp only [hb] at h
    exact Except.noConfusion h

theorem fillT_cons_error_shape (env : Env) (o : SignedOrder) (rest : List SignedOrder)
    (e : FillerError) (h : (fillT env (o :: rest)).1 = .error e) :
    e = .invalidDeadline ∨ e = .fillFailed ∨ ∃ s, e = .external s := by
  simp only [fillT, List.isEmpty_cons, Bool.false_eq_true, if_false] at h
  rcases stepT_error_elim _ _ _ h with h1 | ⟨fills, _, h⟩
  · rcases signFillsT_cons_error env o rest e h1 with h2 | h2
    · exact Or.inl h2
    · exact Or.inr (Or.inr h2)
  rcases stepT_error_elim _ _ _ h with h2 | ⟨rollupSigned, _, h⟩
  · rcases signAndEncodeTxnsT_error_shape _ _ _ _ e h2 with h3 | h3
    · exact Or.inr (Or.inl h3)
    · exact Or.inr (Or.inr h3)
  rcases stepT_error_elim _ _ _ h with h3 | ⟨hostSigned, _, h⟩
  · rcases signAndEncodeTxnsT_error_shape _ _ _ _ e h3 with h4 | h4
    · exact Or.inr (Or.inl h4)
    · exact Or.inr (Or.inr h4)
  rcases stepT_error_elim _ _ _ h with h4 | ⟨latest, _, h⟩
  · exact Or.inr (Or.inr (blockNumberT_error_external _ _ e h4))
  rcases stepT_error_elim _ _ _ h with h5 | ⟨u, _, h⟩
  · exact Or.inr (Or.inr (sendBundleT_error_external _ _ _ _ e h5))
  exact Or.inr (Or.inr (watchConfirmationsT_error_external _ _ _ e h))

/-- C3: on the empty order list, `fill` fails with the empty-order-set error
while performing no external call whatsoever (empty trace: no signing,
encoding, block-number query, relay submission, or confirmation watch); and
on any non-empty order list the empty-order-set error branch is never
taken, whatever the environment does. -/
theorem fill_empty_order_set_error (env : Env) :
    fillT env [] = (.error .emptyOrderSet, []) ∧
    ∀ orders, orders ≠ [] → (fillT env orders).1 ≠ .error .emptyOrderSet := by
  refine ⟨rfl, ?_⟩
  intro orders hne h
  match orders, hne with
  | o :: rest, _ =>
    rcases fillT_cons_error_shape env o rest .emptyOrderSet h with h2 | h2 | ⟨s, h2⟩ <;>
      simp at h2

/-- Witness for `fill_empty_order_set_error`: with a concrete environment
and the single-order list, the result of `fill` is not the empty-order-set
error. -/
theorem fill_empty_order_set_error_witness :
    (fillT refusingSignerEnv [⟨⟨⟨50⟩⟩, 1⟩]).1 ≠ .error .emptyOrderSet :=
  (fill_empty_order_set_error refusingSignerEnv).2 [⟨⟨⟨50⟩⟩, 1⟩] (by simp)

/-- Witness for `watch_confirmations_one_per_hash_all_confirm`: with both
watches confirming, the step succeeds. -/
theorem watch_confirmations_one_per_hash_all_confirm_witness :
    (watchConfirmationsT
        ⟨3, fun _ => .ok [],
          ⟨fun _ => .error "", .error "", .error "", fun _ => .ok ⟨1, .ok 42⟩⟩,
          ⟨fun _ => .error "", .error "", .error "", fun _ => .ok ⟨2, .ok 43⟩⟩,
          fun _ => .error "", ⟨⟨14174, 40⟩, ⟨1, 41⟩, 7⟩⟩
        [5] [6]).1 = .ok () :=
  (watch_confirmations_one_per_hash_all_confirm
      ⟨3, fun _ => .ok [],
        ⟨fun _ => .error "", .error "", .error "", fun _ => .ok ⟨1, .ok 42⟩⟩,
        ⟨fun _ => .error "", .error "", .error "", fun _ => .ok ⟨2, .ok 43⟩⟩,
        fun _ => .error "", ⟨⟨14174, 40⟩, ⟨1, 41⟩, 7⟩⟩
      [5] [6]).2.mpr
    ⟨by intro h hh; simp at hh; subst hh; rfl,
     by intro h hh; simp at hh; subst hh; rfl⟩

/-- The injected capabilities of a `BundleSender` (`bundle.rs`): the
wallet's default signer address, the rollup provider, and the transaction
cache. -/
structure BundleEnv where
  defaultSignerAddress : Nat
  ruProvider : ProviderModel
  forwardBundle : SignetEthBundleHostFills → Except String Nat

/-- `BundleSender::sign_and_encode_txns`: populate sender
(`default_signer_address`), gas limit 1000000 and priority fee
`GWEI_TO_WEI * 16` on each request, fill it into an envelope via the
provider, and collect the encoded bytes; first failure aborts the loop. -/
def bsSignAndEncodeTxnsT (benv : BundleEnv) :
    List TransactionRequest → Except FillerError (List (List Nat)) × Trace
  | [] => (.ok [], [])
  | tx :: rest =>
    let tx' := ((tx.withFrom benv.defaultSignerAddress).withGasLimit
      1000000).withMaxPriorityFeePerGas (GWEI_TO_WEI * 16)
    match benv.ruProvider.fill tx' with
    | .error e => (.error (.external e), [.providerFillCall .rollup tx'])
    | .ok (.builder _) => (.error .fillFailed, [.providerFillCall .rollup tx'])
    | .ok (.envelope filled) =>
      let next := bsSignAndEncodeTxnsT benv rest
      match next.1 with
      | .error e => (.error e, .providerFillCall .rollup tx' :: next.2)
      | .ok outs => (.ok (filled.encoded2718 :: outs), .providerFillCall .rollup tx' :: next.2)

/-- `BundleSender::dummy_tx_request`: a single transfer of 1 wei to the
zero address. -/
def dummyTxRequest : List TransactionRequest :=
  [(TransactionRequest.default.withTo 0).withValue 1]

/-- The `SignetEthBundle` built inside the `send_dummy_bundles` loop:
no host fills, the encoded transactions, and the target block number;
reverting hashes empty, no timestamp window, no replacement id. -/
def mkDummyBundle (txs : List (List Nat)) (targetBlockNumber : Nat) :
    SignetEthBundleHostFills :=
  { hostFills := none
    bundle := { txs := txs
                revertingTxHashes := []
                blockNumber := targetBlockNumber
                minTimestamp := none
                maxTimestamp := none
                replacementUuid := none } }

/-- The `for i in 0..num_blocks` loop of `send_dummy_bundles`: one bundle
per index, targeting `currentBlockNumber + i`, each forwarded to the
transaction cache; a relay error aborts the loop. -/
def sendDummyLoop (benv : BundleEnv) (txs : List (List Nat)) (currentBlockNumber : Nat) :
    List Nat → Except FillerError Unit × Trace
  | [] => (.ok (), [])
  | i :: rest =>
    let bundle := mkDummyBundle txs (currentBlockNumber + i)
    match benv.forwardBundle bundle with
    | .error e => (.error (.external e), [.forwardBundleHostFillsCall bundle])
    | .ok _ =>
      let next := sendDummyLoop benv txs currentBlockNumber rest
      (next.1, .forwardBundleHostFillsCall bundle :: next.2)

/-- `BundleSender::send_dummy_bundles`: encode the dummy transaction, set
the lowest target to the current block number plus one, and submit one
bundle per index `i < num_blocks` targeting `current + 1 + i`. -/
def sendDummyBundlesT (benv : BundleEnv) (numBlocks : Nat) :
    Except FillerError Unit × Trace :=
  stepT (bsSignAndEncodeTxnsT benv dummyTxRequest) fun txs =>
  stepT (blockNumberT benv.ruProvider .rollup) fun latest =>
  sendDummyLoop benv txs (latest + 1) (List.range numBlocks)

/-- The bundles forwarded to the transaction cache by `bundle.rs`, read off
a trace in submission order. -/
def forwardedDummyBundles (t : Trace) : List SignetEthBundleHostFills :=
  t.filterMap fun eff =>
    match eff with
    | .forwardBundleHostFillsCall b => some b
    | _ => none

/-- The bundles forwarded to the transaction cache by `filler.rs`, read off
a trace in submission order. -/
def forwardedBundles (t : Trace) : List SignetEthBundle :=
  t.filterMap fun eff =>
    match eff with
    | .forwardBundleCall b => some b
    | _ => none

theorem bsSignAndEncode_trace_shape (benv : BundleEnv) :
    ∀ (reqs : List TransactionRequest) (eff : Effect),
      eff ∈ (bsSignAndEncodeTxnsT benv reqs).2 →
      ∃ tx', eff = .providerFillCall .rollup tx' := by
  intro reqs
  induction reqs with
  | nil => intro eff he; simp [bsSignAndEncodeTxnsT] at he
  | cons tx rest ih =>
    intro eff he
    simp only [bsSignAndEncodeTxnsT] at he
    rcases hfill : benv.ruProvider.fill (((tx.withFrom benv.defaultSignerAddress).withGasLimit
        1000000).withMaxPriorityFeePerGas (GWEI_TO_WEI * 16)) with e | stx
    · simp only [hfill, List.mem_singleton] at he
      exact ⟨_, he⟩
    rcases stx with filled | btx
    · rcases hnext : (bsSignAndEncodeTxnsT benv rest).1 with e | outs <;>
      · simp only [hfill, hnext, List.mem_cons] at he
        rcases he with he | he
        · exact ⟨_, he⟩
        · exact ih eff he
    · simp only [hfill, List.mem_singleton] at he
      exact ⟨_, he⟩

theorem sendDummyLoop_forwarded_mem (benv : BundleEnv) (txs : List (List Nat)) (cur : Nat) :
    ∀ (idxs : List Nat) (b : SignetEthBundleHostFills),
      b ∈ forwardedDummyBundles (sendDummyLoop benv txs cur idxs).2 →
      ∃ i ∈ idxs, b = mkDummyBundle txs (cur + i) := by
  intro idxs
  induction idxs with
  | nil => intro b hb; simp [sendDummyLoop, forwardedDummyBundles] at hb
  | cons i rest ih =>
    intro b hb
    simp only [sendDummyLoop] at hb
    rcases hf : benv.forwardBundle (mkDummyBundle txs (cur + i)) with e | bid
    · simp only [hf, forwardedDummyBundles] at hb
      simp at hb
      exact ⟨i, List.mem_cons_self _ _, hb⟩
    · simp only [hf, forwardedDummyBundles, List.filterMap_cons] at hb
      simp only [List.mem_cons] at hb
      rcases hb with hb | hb
      · exact ⟨i, List.mem_cons_self _ _, hb⟩
      · obtain ⟨j, hj, hbj⟩ := ih b hb
        exact ⟨j, List.mem_cons_of_mem _ hj, hbj⟩

theorem sendDummyLoop_success (benv : BundleEnv) (txs : List (List Nat)) (cur : Nat) :
    ∀ (idxs : List Nat), (sendDummyLoop benv txs cur idxs).1 = .ok () →
      forwardedDummyBundles (sendDummyLoop benv txs cur idxs).2 =
        idxs.map (fun i => mkDummyBundle txs (cur + i)) ∧
      ∀ i ∈ idxs, ∃ ackId, benv.forwardBundle (mkDummyBundle txs (cur + i)) = .ok ackId := by
  intro idxs
  induction idxs with
  | nil => intro _; exact ⟨rfl, by simp⟩
  | cons i rest ih =>
    intro hok
    simp only [sendDummyLoop] at hok ⊢
    rcases hf : benv.forwardBundle (mkDummyBundle txs (cur + i)) with e | bid
    · rw [hf] at hok
      exact Except.noConfusion hok
    · rw [hf] at hok
      obtain ⟨hmap, hack⟩ := ih hok
      refine ⟨?_, ?_⟩
      · simp only [forwardedDummyBundles, List.filterMap_cons, List.map_cons]
        rw [forwardedDummyBundles] at hmap
        rw [hmap]
      · intro j hj
        rcases List.mem_cons.1 hj with rfl | hj
        · exact ⟨bid, hf⟩
        · exact hack j hj

theorem stepT_ok_out {α β : Type} (x : Except FillerError α × Trace)
    (f : α → Except FillerError β × Trace) (a : α) (hx : x.1 = .ok a) :
    stepT x f = ((f a).1, x.2 ++ (f a).2) := by
  rcases x with ⟨r, t⟩
  rcases r with e | a'
  · exact Except.noConfusion hx
  · have : a' = a := Except.ok.inj hx
    subst this
    rfl

theorem blockNumberT_ok (p : ProviderModel) (chain : ChainLabel) (n : Nat)
    (h : (blockNumberT p chain).1 = .ok n) : p.blockNumber = .ok n := by
  simp only [blockNumberT] at h
  rcases hb : p.blockNumber with e | m
  · simp only [hb] at h
    exact Except.noConfusion h
  · simp only [hb] at h
    rw [Except.ok.inj h]

theorem blockNumberT_trace (p : ProviderModel) (chain : ChainLabel) :
    (blockNumberT p chain).2 = [.getBlockNumberCall chain] := by
  simp only [blockNumberT]
  rcases hb : p.blockNumber with e | m <;> rfl

theorem sendBundleT_trace (env : Env) (ruTxs hostTxs : List (List Nat)) (target : Nat) :
    (sendBundleT env ruTxs hostTxs target).2 =
      [.forwardBundleCall (mkFillerBundle ruTxs hostTxs target)] := by
  simp only [sendBundleT]
  rcases hf : env.forwardBundle (mkFillerBundle ruTxs hostTxs target) with e | bid <;> rfl

theorem signFillsT_trace_shape (env : Env) (orders : List SignedOrder) (eff : Effect)
    (he : eff ∈ (signFillsT env orders).2) : ∃ uf, eff = .signCall uf := by
  rcases orders with _ | ⟨o, rest⟩
  · simp [signFillsT] at he
  · simp only [signFillsT] at he
    rcases hp : parseU64 o.permit.permit.deadline with _ | d
    · simp [hp] at he
    · simp only [hp] at he
      rcases hs : env.signFn (((UnsignedFill.fromAgg (aggregateOrders (o :: rest))).withDeadline
          d).withChain env.constants.system) with s | fills <;>
      · simp only [hs, List.mem_singleton] at he
        exact ⟨_, he⟩

theorem watchConfirmationsT_trace_shape (env : Env) (ruHashes hostHashes : List Nat)
    (eff : Effect) (he : eff ∈ (watchConfirmationsT env ruHashes hostHashes).2) :
    ∃ c cfg, eff = .watchCall c cfg := by
  simp only [watchConfirmationsT, List.mem_append, List.mem_map] at he
  rcases he with ⟨h, _, rfl⟩ | ⟨h, _, rfl⟩ <;> exact ⟨_, _, rfl⟩

theorem fillT_forward_target (env : Env) (orders : List SignedOrder)
    (b : SignetEthBundle) (h : Effect.forwardBundleCall b ∈ (fillT env orders).2) :
    ∃ latest, env.ruProvider.blockNumber = .ok latest ∧
      b.bundle.blockNumber = latest + 1 := by
  rcases orders with _ | ⟨o, rest⟩
  · simp [fillT] at h
  simp only [fillT, List.isEmpty_cons, Bool.false_eq_true, if_false] at h
  rcases stepT_trace_mem _ _ _ h with h1 | ⟨fills, _, h⟩
  · obtain ⟨uf, huf⟩ := signFillsT_trace_shape env (o :: rest) _ h1
    exact Effect.noConfusion huf
  rcases stepT_trace_mem _ _ _ h with h2 | ⟨rollupSigned, _, h⟩
  · rcases signAndEncode_trace_shape _ _ _ _ _ h2 with ⟨tx, _, htx⟩ | htx <;>
      exact Effect.noConfusion htx
  rcases stepT_trace_mem _ _ _ h with h3 | ⟨hostSigned, _, h⟩
  · rcases signAndEncode_trace_shape _ _ _ _ _ h3 with ⟨tx, _, htx⟩ | htx <;>
      exact Effect.noConfusion htx
  rcases stepT_trace_mem _ _ _ h with h4 | ⟨latest, hok4, h⟩
  · rw [blockNumberT_trace] at h4
    simp only [List.mem_singleton] at h4
    exact Effect.noConfusion h4
  rcases stepT_trace_mem _ _ _ h with h5 | ⟨u, _, h⟩
  · rw [sendBundleT_trace] at h5
    simp only [List.mem_singleton, Effect.forwardBundleCall.injEq] at h5
    refine ⟨latest, blockNumberT_ok _ _ _ hok4, ?_⟩
    rw [h5]
    rfl
  · obtain ⟨c, cfg, hc⟩ := watchConfirmationsT_trace_shape env _ _ _ h
    exact Effect.noConfusion hc

/-- C5: every bundle submitted by the filler pipeline targets the queried
current rollup block number plus one, and every bundle submitted by the
resubmission policy of `bundle.rs` targets `currentBlock + k` for some
`1 ≤ k ≤ N`; on success the resubmission policy submits exactly `N` bundles
targeting the consecutive block numbers `currentBlock + 1` through
`currentBlock + N`, identical except for the target block number, each
acknowledged by its own relay response. -/
theorem bundle_target_blocks (benv : BundleEnv) (numBlocks bn : Nat) (env : Env)
    (orders : List SignedOrder) :
    (benv.ruProvider.blockNumber = .ok bn →
      (∀ b ∈ forwardedDummyBundles (sendDummyBundlesT benv numBlocks).2,
        ∃ k, 1 ≤ k ∧ k ≤ numBlocks ∧ b.bundle.blockNumber = bn + k) ∧
      ∀ txs, (bsSignAndEncodeTxnsT benv dummyTxRequest).1 = .ok txs →
        (sendDummyBundlesT benv numBlocks).1 = .ok () →
        forwardedDummyBundles (sendDummyBundlesT benv numBlocks).2 =
          (List.range numBlocks).map (fun i => mkDummyBundle txs (bn + 1 + i)) ∧
        ∀ i, i < numBlocks → ∃ ackId,
          benv.forwardBundle (mkDummyBundle txs (bn + 1 + i)) = .ok ackId) ∧
    ∀ b, Effect.forwardBundleCall b ∈ (fillT env orders).2 →
      ∃ latest, env.ruProvider.blockNumber = .ok latest ∧
        b.bundle.blockNumber = latest + 1 := by
  refine ⟨?_, fillT_forward_target env orders⟩
  intro hbn
  have hblock : blockNumberT benv.ruProvider .rollup =
      (.ok bn, [.getBlockNumberCall .rollup]) := by
    simp [blockNumberT, hbn]
  constructor
  · intro b hb
    have hmem0 : Effect.forwardBundleHostFillsCall b ∈ (sendDummyBundlesT benv numBlocks).2 := by
      simp only [forwardedDummyBundles, List.mem_filterMap] at hb
      obtain ⟨eff, heff, hsome⟩ := hb
      rcases eff with uf | ⟨c1, tx1⟩ | c1 | c1 | b2 | b2 | ⟨c1, cfg1⟩ <;> simp at hsome
      exact hsome ▸ heff
    simp only [sendDummyBundlesT] at hmem0
    rcases stepT_trace_mem _ _ _ hmem0 with h1 | ⟨txs, _, h⟩
    · obtain ⟨tx', htx⟩ := bsSignAndEncode_trace_shape benv dummyTxRequest _ h1
      exact Effect.noConfusion htx
    rcases stepT_trace_mem _ _ _ h with h2 | ⟨latest, hok2, h⟩
    · rw [blockNumberT_trace] at h2
      simp only [List.mem_singleton] at h2
      exact Effect.noConfusion h2
    · have hlatest : latest = bn := by
        have := blockNumberT_ok benv.ruProvider .rollup latest hok2
        rw [hbn] at this
        exact (Except.ok.inj this).symm
      rw [hlatest] at h
      have hmem : b ∈ forwardedDummyBundles
          (sendDummyLoop benv txs (bn + 1) (List.range numBlocks)).2 := by
        simp only [forwardedDummyBundles, List.mem_filterMap]
        exact ⟨_, h, rfl⟩
      obtain ⟨i, hi, hbi⟩ := sendDummyLoop_forwarded_mem benv txs (bn + 1) _ b hmem
      rw [List.mem_range] at hi
      exact ⟨i + 1, by omega, by omega, by rw [hbi]; simp [mkDummyBundle]; omega⟩
  · intro txs htxs hok
    have hfull : sendDummyBundlesT benv numBlocks =
        ((sendDummyLoop benv txs (bn + 1) (List.range numBlocks)).1,
          (bsSignAndEncodeTxnsT benv dummyTxRequest).2 ++
            ([.getBlockNumberCall .rollup] ++
              (sendDummyLoop benv txs (bn + 1) (List.range numBlocks)).2)) := by
      simp only [sendDummyBundlesT]
      rw [stepT_ok_out _ _ txs htxs, stepT_ok_out _ _ bn (by rw [hblock]), hblock]
    rw [hfull] at hok
    obtain ⟨hmap, hack⟩ := sendDummyLoop_success benv txs (bn + 1) (List.range numBlocks) hok
    constructor
    · rw [hfull]
      have h1 : forwardedDummyBundles (bsSignAndEncodeTxnsT benv dummyTxRequest).2 = [] := by
        rw [forwardedDummyBundles, List.filterMap_eq_nil_iff]
        intro eff heff
        obtain ⟨tx', htx⟩ := bsSignAndEncode_trace_shape benv dummyTxRequest _ heff
        rw [htx]
      have happ : ∀ t1 t2 : Trace, forwardedDummyBundles (t1 ++ t2) =
          forwardedDummyBundles t1 ++ forwardedDummyBundles t2 := by
        intro t1 t2
        simp [forwardedDummyBundles]
      show forwardedDummyBundles ((bsSignAndEncodeTxnsT benv dummyTxRequest).2 ++
          ([.getBlockNumberCall .rollup] ++
            (sendDummyLoop benv txs (bn + 1) (List.range numBlocks)).2)) = _
      rw [happ, happ, h1, hmap]
      rfl
    · intro i hi
      exact hack i (List.mem_range.2 hi)

/-- A concrete `BundleSender` environment: the provider fills every request
into an envelope encoding to `[7]`, the chain tip is block 100, and the
relay acknowledges every bundle with id 1. -/
def acceptingBundleEnv : BundleEnv :=
  ⟨9, ⟨fun _ => .ok (.envelope ⟨3, [7]⟩), .ok 14174, .ok 100, fun _ => .error ""⟩,
    fun _ => .ok 1⟩

/-- Witness for `bundle_target_blocks`: with chain tip 100 and `N = 2`, the
two submitted bundles target blocks 101 and 102 and differ only in the
target block number. -/
theorem bundle_target_blocks_witness :
    forwardedDummyBundles (sendDummyBundlesT acceptingBundleEnv 2).2 =
      (List.range 2).map (fun i => mkDummyBundle [[7]] (100 + 1 + i)) := by
  have h := (bundle_target_blocks acceptingBundleEnv 2 100 refusingSignerEnv []).1 (by rfl)
  exact (h.2 [[7]] (by rfl) (by rfl)).1

end SignetOrders
